import Mathlib

/-!
Shallow embedding of `src/handlers.js` (bookodav): an HTTP gateway exposing a
flat object store as a WebDAV-browsable file service.

Modelling conventions:
* JavaScript strings are Lean `String`s (4.14: a wrapper around `List Char`);
  the JS builtins the handlers use (`decodeURIComponent`, `includes`, `trim`,
  `split`, `lastIndexOf`, `replace(/^\/+/, "")`, `startsWith`, `endsWith`,
  `encodeURI`, `Date.prototype.toUTCString`, `Number` printing) are modelled
  below as executable functions over `List Char` (ASCII fragment; the
  multi-byte UTF-8 branch of percent-decoding is not modelled, all inputs in
  the development are ASCII).
* The object store (`env.MY_BUCKET`) and the edge cache are external
  collaborators: store outcomes are passed in as `Except`/`Option` parameters,
  and every store call a handler performs is recorded in `storeOps`.
* `ctx.waitUntil(cache.delete …)` is fire-and-forget: the model records the
  scheduled eviction URL in `evictions`; the response value is computed
  without any input from the eviction, mirroring that it is never awaited.
* The MIME table lives in `./utils` (outside this repository's core): it is a
  parameter `mime : String → Option String` plus its `default` entry.
-/

set_option maxRecDepth 40000

namespace Bookodav

/-! ## JS string builtin models -/

/-- Model of JS `String.prototype.includes` restricted to what the handlers
use: substring containment test. -/
def listContainsSub (pat : List Char) : List Char → Bool
  | [] => pat.isEmpty
  | c :: rest => pat.isPrefixOf (c :: rest) || listContainsSub pat rest

/-- JS `s.includes(sub)`. -/
def jsIncludes (s sub : String) : Bool := listContainsSub sub.data s.data

/-- Whitespace for JS `trim` (ASCII fragment). -/
def jsWhitespace (c : Char) : Bool := c == ' ' || c == '\t' || c == '\n' || c == '\r'

/-- JS `s.trim()`. -/
def jsTrim (s : String) : String :=
  ⟨((s.data.dropWhile jsWhitespace).reverse.dropWhile jsWhitespace).reverse⟩

/-- JS `s.replace(/^\/+/, "")`: drop the leading run of slashes. -/
def stripLeadingSlashes (s : String) : String := ⟨s.data.dropWhile (· == '/')⟩

/-- Value of an ASCII hex digit, `none` if the character is not one. -/
def hexDigitVal (c : Char) : Option Nat :=
  if '0' ≤ c ∧ c ≤ '9' then some (c.toNat - 48)
  else if 'A' ≤ c ∧ c ≤ 'F' then some (c.toNat - 55)
  else if 'a' ≤ c ∧ c ≤ 'f' then some (c.toNat - 87)
  else none

/-- Percent-decoding, the core of JS `decodeURIComponent` (ASCII fragment:
each `%XX` becomes the character with code `XX`); `none` models the
`URIError` thrown on a malformed escape. -/
def percentDecodeList : List Char → Option (List Char)
  | [] => some []
  | c :: rest =>
      if c = '%' then
        match rest with
        | h1 :: h2 :: rest2 =>
          match hexDigitVal h1, hexDigitVal h2 with
          | some v1, some v2 => (percentDecodeList rest2).map (Char.ofNat (16 * v1 + v2) :: ·)
          | _, _ => none
        | _ => none
      else (percentDecodeList rest).map (c :: ·)

/-- JS `decodeURIComponent` (`none` = `URIError`). -/
def decodeURIComponent (s : String) : Option String :=
  (percentDecodeList s.data).map (⟨·⟩)

/-- JS `s.split(sep)` for a one-character separator, on char lists.
Always returns a non-empty list of pieces. -/
def splitOnChar (sep : Char) : List Char → List (List Char)
  | [] => [[]]
  | c :: rest =>
      match splitOnChar sep rest with
      | [] => [[]]
      | h :: t => if c = sep then [] :: h :: t else (c :: h) :: t

/-- JS `s.lastIndexOf(c)`; `none` models the `-1` "absent" result. -/
def lastIdxOf (c : Char) : List Char → Option Nat
  | [] => none
  | x :: rest =>
      match lastIdxOf c rest with
      | some j => some (j + 1)
      | none => if x = c then some 0 else none

/-- JS number → string for the natural numbers the handlers interpolate. -/
def digitChar (n : Nat) : Char := Char.ofNat (48 + n)

/-- Decimal digits, most significant first; structural on a fuel argument so
that the kernel can evaluate it (`n + 1` units of fuel always suffice). -/
def natDigitsCore : Nat → Nat → List Char
  | 0, _ => []
  | fuel + 1, n =>
      if n < 10 then [digitChar n]
      else natDigitsCore fuel (n / 10) ++ [digitChar (n % 10)]

/-- Decimal digits of `n`, most significant first. -/
def natDigits (n : Nat) : List Char := natDigitsCore (n + 1) n

/-- Decimal rendering of a natural number (JS template `${n}`). -/
def natToStr (n : Nat) : String := ⟨natDigits n⟩

/-- Characters JS `encodeURI` leaves unescaped (ASCII fragment). -/
def encodeURIAllowed (c : Char) : Bool :=
  c.isAlphanum ||
    [';', ',', '/', '?', ':', '@', '&', '=', '+', '$', '-', '_', '.', '!', '~',
      '*', Char.ofNat 39, '(', ')', '#'].contains c

/-- Upper-case hex digit (table form; only 0–15 occur for ASCII input). -/
def hexDigitChar : Nat → Char
  | 0 => '0' | 1 => '1' | 2 => '2' | 3 => '3' | 4 => '4' | 5 => '5' | 6 => '6' | 7 => '7'
  | 8 => '8' | 9 => '9' | 10 => 'A' | 11 => 'B' | 12 => 'C' | 13 => 'D' | 14 => 'E' | _ => 'F'

/-- `%XX` escape of one character. -/
def pctEncodeChar (c : Char) : List Char :=
  ['%', hexDigitChar (c.toNat / 16), hexDigitChar (c.toNat % 16)]

/-- JS `encodeURI` on char lists (ASCII fragment). -/
def encodeURIList : List Char → List Char
  | [] => []
  | c :: rest => (if encodeURIAllowed c then [c] else pctEncodeChar c) ++ encodeURIList rest

/-- JS `encodeURI`. -/
def encodeURI (s : String) : String := ⟨encodeURIList s.data⟩

/-! ## `Date.prototype.toUTCString` (RFC 1123-style UTC format) -/

/-- Two-digit zero-padded decimal. -/
def pad2 (n : Nat) : String := if n < 10 then "0" ++ natToStr n else natToStr n

/-- English weekday abbreviation, index 0 = Sunday. -/
def weekdayName (n : Nat) : String :=
  match n with
  | 0 => "Sun" | 1 => "Mon" | 2 => "Tue" | 3 => "Wed" | 4 => "Thu" | 5 => "Fri" | _ => "Sat"

/-- English month abbreviation, 1 = January. -/
def monthName (n : Nat) : String :=
  match n with
  | 1 => "Jan" | 2 => "Feb" | 3 => "Mar" | 4 => "Apr" | 5 => "May" | 6 => "Jun"
  | 7 => "Jul" | 8 => "Aug" | 9 => "Sep" | 10 => "Oct" | 11 => "Nov" | _ => "Dec"

/-- Proleptic-Gregorian civil date from days since 1970-01-01 (non-negative):
returns `(year, month, day)`. -/
def civilFromDays (z0 : Nat) : Nat × Nat × Nat :=
  let z := z0 + 719468
  let era := z / 146097
  let doe := z % 146097
  let yoe := (doe - doe / 1460 + doe / 36524 - doe / 146097) / 365
  let y := yoe + era * 400
  let doy := doe - (365 * yoe + yoe / 4 - yoe / 100)
  let mp := (5 * doy + 2) / 153
  let d := doy - (153 * mp + 2) / 5 + 1
  let m := if mp < 10 then mp + 3 else mp - 9
  (if m ≤ 2 then y + 1 else y, m, d)

/-- JS `new Date(ms).toUTCString()` for a non-negative millisecond timestamp:
"Www, DD Mon YYYY HH:MM:SS GMT". -/
def toUTCString (ms : Nat) : String :=
  let days := ms / 86400000
  let rem := ms % 86400000 / 1000
  let ymd := civilFromDays days
  weekdayName ((days + 4) % 7) ++ ", " ++ pad2 ymd.2.2 ++ " " ++ monthName ymd.2.1 ++ " " ++
    natToStr ymd.1 ++ " " ++ pad2 (rem / 3600) ++ ":" ++ pad2 (rem % 3600 / 60) ++ ":" ++
    pad2 (rem % 60) ++ " GMT"

/-! ## Data model -/

/-- An HTTP response as far as the handlers determine it (status + body). -/
structure Response where
  status : Nat
  body : String
deriving DecidableEq

/-- A call the handler makes on the object store (`env.MY_BUCKET`). -/
inductive StoreOp where
  | get (key : String)
  | put (key : String) (contentType : String)
  | del (key : String)
  | list (pfx : String)
deriving DecidableEq

/-- What one handler invocation produces: the response, the store calls it
performed (in order), and the cache evictions it scheduled via
`ctx.waitUntil(cache.delete …)` (listing URLs, in order).  Evictions are
fire-and-forget: the `response` field is computed with no input from them. -/
structure HandlerOutcome where
  response : Response
  storeOps : List StoreOp
  evictions : List String
deriving DecidableEq

/-- One child returned by `MY_BUCKET.list`: key, byte size, upload timestamp
(milliseconds since the epoch). -/
structure ObjEntry where
  key : String
  size : Nat
  uploaded : Nat
deriving DecidableEq

/-- One entry of the multipart form payload of a bulk upload: either a plain
field (skipped by the handler's `instanceof File` test) or a file part with
its name and the outcome the store would give its `put`. -/
inductive FormEntry where
  | field (name value : String)
  | file (filename : String) (putResult : Except String Unit)

/-- One element of the bulk-upload JSON results array, as an ordered list of
(field name, string value) pairs — JS object literals keep insertion order. -/
abbrev ResultEntry := List (String × String)

/-- Outcome of the bulk-upload handler: the response, the value of the JS
`results` variable at return time, the store calls, and the scheduled
evictions. -/
structure BulkOutcome where
  response : Response
  results : List ResultEntry
  storeOps : List StoreOp
  evictions : List String
deriving DecidableEq

/-! ## Shared path logic -/

/-- The validation both the PUT handler and the canonicalization contract
apply to a decoded path: reject on `..` anywhere or blank after trimming. -/
def canonCheck (d : String) : Bool := jsIncludes d ".." || jsTrim d == ""

/-- The path canonicalization applied by the handlers (spec §4.1):
percent-decode once, reject if the result contains `..` or is blank after
trimming, then strip all leading slashes.  `none` = rejected (`InvalidPath`)
or malformed escape. -/
def canonicalize (raw : String) : Option String :=
  match decodeURIComponent raw with
  | none => none
  | some d => if canonCheck d then none else some (stripLeadingSlashes d)

/-- `handleDeleteFile`'s parent-directory computation:
`idx = filePath.lastIndexOf("/"); dir = idx > 0 ? "/" + filePath.substring(0, idx) : "/"`,
guarded by `filePath.includes("/")`. -/
def deleteDir (fp : String) : String :=
  if jsIncludes fp "/" then
    match lastIdxOf '/' fp.data with
    | some idx => if 0 < idx then "/" ++ (⟨fp.data.take idx⟩ : String) else "/"
    | none => "/"
  else "/"

/-- Claim-side reading of "the parent directory of the mutated key:
everything before the last `/`, or the root if the key contains no `/`"
(spec §4.3).  Computed independently of `lastIdxOf`, from the right. -/
def specParent (fp : String) : String :=
  if '/' ∈ fp.data then ⟨((fp.data.reverse.dropWhile (fun c => c ≠ '/')).drop 1).reverse⟩
  else ""

/-- `filename.split(".").pop().toLowerCase()`. -/
def extOf (s : String) : String :=
  ⟨((splitOnChar '.' s.data).getLast?.getD []).map Char.toLower⟩

/-! ## Handlers

Each handler takes the request's URL `pathname` (and `origin` where the code
uses it), the external collaborators it consults, and returns its outcome;
`none` models a `URIError` escaping from `decodeURIComponent`. -/

/-- `handleDeleteFile(request, env, ctx)`.  `deleteResult` is the outcome of
`env.MY_BUCKET.delete` (`error` = the promise rejected). -/
def handleDeleteFile (pathname origin : String) (deleteResult : Except String Unit) :
    Option HandlerOutcome :=
  match decodeURIComponent ⟨pathname.data.drop 1⟩ with
  | none => none
  | some filePath =>
    if jsIncludes filePath ".." then
      some ⟨⟨400, "Invalid path"⟩, [], []⟩
    else
      match deleteResult with
      | .error msg =>
          some ⟨⟨500, "Failed to delete file: " ++ msg⟩, [.del filePath], []⟩
      | .ok _ =>
          some ⟨⟨200, "File deleted successfully"⟩, [.del filePath],
            [origin ++ deleteDir filePath]⟩

/-- `handlePutFile(request, env, ctx)`.  `mime`/the literal fallback model
`mimeTypes[extension] || "application/octet-stream"`; `putResult` is the
outcome of `env.MY_BUCKET.put`. -/
def handlePutFile (pathname origin : String) (mime : String → Option String)
    (putResult : Except String Unit) : Option HandlerOutcome :=
  match decodeURIComponent pathname with
  | none => none
  | some fp0 =>
    if canonCheck fp0 then
      some ⟨⟨400, "Invalid path"⟩, [], []⟩
    else
      let filePath := stripLeadingSlashes fp0
      let contentType := (mime (extOf filePath)).getD "application/octet-stream"
      match putResult with
      | .error msg =>
          some ⟨⟨500, "Failed to upload file: " ++ msg⟩, [.put filePath contentType], []⟩
      | .ok _ =>
          some ⟨⟨201, "File uploaded successfully"⟩, [.put filePath contentType],
            [origin ++ "/"]⟩

/-- `handleGetFile(request, env)`.  `store` is `env.MY_BUCKET.get` (`none` =
the object is absent), `mime`/`mimeDefault` model
`mimeTypes[extension] || mimeTypes.default`. -/
def handleGetFile (pathname : String) (store : String → Option String)
    (mime : String → Option String) (mimeDefault : String) : Option HandlerOutcome :=
  match decodeURIComponent ⟨pathname.data.drop 1⟩ with
  | none => none
  | some filename =>
    if pathname = "/" then
      some ⟨⟨302, "Use /dav for WebDAV"⟩, [], []⟩
    else
      match store filename with
      | none => some ⟨⟨404, "File not found"⟩, [.get filename], []⟩
      | some content => some ⟨⟨200, content⟩, [.get filename], []⟩

/-- `JSON.stringify` for one results object (field values here never need
escaping; `\x7b`/`\x7d` are the literal braces). -/
def jsonOfEntry (e : ResultEntry) : String :=
  "\x7b" ++ String.intercalate "," (e.map fun kv => "\"" ++ kv.1 ++ "\":\"" ++ kv.2 ++ "\"") ++ "\x7d"

/-- `JSON.stringify(results)`. -/
def jsonStringify (rs : List ResultEntry) : String :=
  "[" ++ String.intercalate "," (rs.map jsonOfEntry) ++ "]"

/-- The loop body of `handleMultpleUploads`, carrying the JS `results`
accumulator plus the performed store calls and scheduled evictions. -/
def processEntries (mime : String → Option String) (mimeDefault origin : String) :
    List FormEntry → List ResultEntry → List StoreOp → List String → BulkOutcome
  | [], results, ops, evs =>
      ⟨⟨200, jsonStringify results⟩, results, ops, evs⟩
  | .field _ _ :: rest, results, ops, evs =>
      processEntries mime mimeDefault origin rest results ops evs
  | .file filename putResult :: rest, results, ops, evs =>
      let contentType := (mime (extOf filename)).getD mimeDefault
      let sanitized := stripLeadingSlashes filename
      if jsIncludes filename ".." then
        ⟨⟨400, "Invalid path"⟩, results, ops, evs⟩
      else if sanitized = "" then
        ⟨⟨400, "Invalid filename"⟩, results, ops, evs⟩
      else
        match putResult with
        | .ok _ =>
            processEntries mime mimeDefault origin rest
              (results ++ [[("sanitizedFilename", sanitized), ("status", "success"),
                ("contentType", contentType)]])
              (ops ++ [.put sanitized contentType])
              (evs ++ [origin ++ "/"])
        | .error msg =>
            processEntries mime mimeDefault origin rest
              (results ++ [[("filename", filename), ("status", "failed"), ("error", msg)]])
              (ops ++ [.put sanitized contentType])
              evs

/-- `handleMultpleUploads(request, env, ctx)` (name as in the source). -/
def handleMultpleUploads (entries : List FormEntry) (mime : String → Option String)
    (mimeDefault origin : String) : BulkOutcome :=
  processEntries mime mimeDefault origin entries [] [] []

/-! ## Collection listing (`handleFileList`) -/

/-- Path normalization at the top of `handleFileList`: ensure a leading
slash, drop one trailing slash unless the path is exactly `/`. -/
def normalizeListPath (p0 : String) : String :=
  let p := if p0.data.head? = some '/' then p0 else "/" ++ p0
  if p.data.getLast? = some '/' ∧ p ≠ "/" then ⟨p.data.dropLast⟩ else p

/-- The store prefix: empty for the root, else the path without its leading
slash, with a trailing slash appended when missing. -/
def listPrefixOf (p : String) : String :=
  let pfx := if p = "/" then "" else (⟨p.data.drop 1⟩ : String)
  if pfx ≠ "" ∧ pfx.data.getLast? ≠ some '/' then pfx ++ "/" else pfx

/-- `path === "/" ? "root" : path.split("/").pop()`. -/
def collDisplayName (p : String) : String :=
  if p = "/" then "root" else ⟨(splitOnChar '/' p.data).getLast?.getD []⟩

/-- `obj.key.split("/").filter(x => x).pop() || obj.key`. -/
def childDisplayName (key : String) : String :=
  match ((splitOnChar '/' key.data).filter (fun l => l ≠ [])).getLast? with
  | some seg => ⟨seg⟩
  | none => key

/-- Claim-side "last non-empty `/`-delimited segment" of a string, read off
the spec's words: split on `/`, drop empty segments, take the last. -/
def lastNonEmptySeg (s : String) : Option String :=
  (((splitOnChar '/' s.data).filter (fun l => l ≠ [])).getLast?).map (⟨·⟩)

/-- The opening of the multistatus document: XML header plus the one
`response` element describing the collection itself. -/
def collectionBlock (p : String) : String :=
  "<?xml version=\"1.0\" encoding=\"utf-8\" ?>\n<D:multistatus xmlns:D=\"DAV:\">\n  <D:response>\n    " ++
    "<D:href>" ++ encodeURI p ++ "</D:href>" ++
    "\n    <D:propstat>\n      <D:prop>\n        <D:resourcetype><D:collection/></D:resourcetype>\n        " ++
    "<D:displayname>" ++ collDisplayName p ++ "</D:displayname>" ++
    "\n        <D:creationdate>2024-01-01T00:00:00Z</D:creationdate>\n        <D:getlastmodified>Mon, 01 Jan 2024 00:00:00 GMT</D:getlastmodified>\n      </D:prop>\n      <D:status>HTTP/1.1 200 OK</D:status>\n    </D:propstat>\n  </D:response>"

/-- The `response` element appended for one listed child. -/
def childBlock (obj : ObjEntry) : String :=
  "\n  <D:response>\n    " ++
    "<D:href>" ++ encodeURI ("/" ++ obj.key) ++ "</D:href>" ++
    "\n    <D:propstat>\n      <D:prop>\n        " ++
    (if obj.key.data.getLast? = some '/' then
      "<D:resourcetype><D:collection/></D:resourcetype>"
     else "<D:resourcetype/>") ++
    "\n        " ++ "<D:displayname>" ++ childDisplayName obj.key ++ "</D:displayname>" ++
    "\n        " ++ "<D:getcontentlength>" ++ natToStr obj.size ++ "</D:getcontentlength>" ++
    "\n        " ++ "<D:getlastmodified>" ++ toUTCString obj.uploaded ++ "</D:getlastmodified>" ++
    "\n      </D:prop>\n      <D:status>HTTP/1.1 200 OK</D:status>\n    </D:propstat>\n  </D:response>"

/-- The loop `for (const obj of objects) xmlResponse += …`. -/
def concatBlocks : List ObjEntry → String
  | [] => ""
  | o :: rest => childBlock o ++ concatBlocks rest

/-- `handleFileList(request, env, ctx)`.  `listResult` is the outcome of
`env.MY_BUCKET.list({ prefix })` (`listResult.objects || []`); on an error the
XML error document of the catch block is produced. -/
def handleFileList (pathname : String) (listResult : Except String (List ObjEntry)) :
    HandlerOutcome :=
  let p := normalizeListPath pathname
  let pfx := listPrefixOf p
  match listResult with
  | .error msg =>
      ⟨⟨500, "<?xml version=\"1.0\" encoding=\"utf-8\" ?><D:error xmlns:D=\"DAV:\">" ++ msg ++
        "</D:error>"⟩, [.list pfx], []⟩
  | .ok objs =>
      ⟨⟨207, collectionBlock p ++ concatBlocks objs ++ "\n</D:multistatus>"⟩, [.list pfx], []⟩

/-! ## Occurrence counting and containment (for statements about the XML) -/

/-- Number of positions at which `pat` occurs in a character list (overlapping
occurrences all counted); a position count, so an empty `pat` never straddles. -/
def countOcc (pat : List Char) : List Char → Nat
  | [] => 0
  | c :: rest => (if pat.isPrefixOf (c :: rest) then 1 else 0) + countOcc pat rest

/-- Number of occurrences of `pat` in the string `s`. -/
def countSubstr (pat s : String) : Nat := countOcc pat.data s.data

/-- `pat` occurs somewhere inside `s`. -/
def StrContains (s pat : String) : Prop := pat.data <:+: s.data

instance strContains_decidable (s pat : String) : Decidable (StrContains s pat) :=
  List.decidableInfix pat.data s.data

/-! ## Spec-side helpers for the bulk-upload claims -/

/-- The file parts of a form payload, in order, with their store outcomes. -/
def fileItems : List FormEntry → List (String × Except String Unit)
  | [] => []
  | .field _ _ :: rest => fileItems rest
  | .file n r :: rest => (n, r) :: fileItems rest

/-- A form entry the bulk-upload loop processes without aborting the request:
plain fields, and file parts whose name has no `..` and a non-empty
sanitized form. -/
def entryOk : FormEntry → Bool
  | .field _ _ => true
  | .file n _ => !jsIncludes n ".." && !(stripLeadingSlashes n = "")

/-- The results entry the loop records for one file part. -/
def expectedEntry (mime : String → Option String) (mimeDefault : String)
    (it : String × Except String Unit) : ResultEntry :=
  match it.2 with
  | .ok _ => [("sanitizedFilename", stripLeadingSlashes it.1), ("status", "success"),
      ("contentType", (mime (extOf it.1)).getD mimeDefault)]
  | .error msg => [("filename", it.1), ("status", "failed"), ("error", msg)]

/-- The store call the loop performs for one file part. -/
def expectedOp (mime : String → Option String) (mimeDefault : String)
    (it : String × Except String Unit) : StoreOp :=
  .put (stripLeadingSlashes it.1) ((mime (extOf it.1)).getD mimeDefault)

/-- The evictions the loop schedules for one file part (root listing URL on a
successful store, nothing on a failed one). -/
def expectedEvs (origin : String) (it : String × Except String Unit) : List String :=
  match it.2 with
  | .ok _ => [origin ++ "/"]
  | .error _ => []

/-- All evictions the loop schedules over a list of file parts, in order. -/
def expectedEvsAll (origin : String) : List (String × Except String Unit) → List String
  | [] => []
  | it :: rest => expectedEvs origin it ++ expectedEvsAll origin rest

/-- Whether a store outcome is a success (decidable stand-in for
`· = Except.ok ()`). -/
def exceptOk : Except String Unit → Bool
  | .ok _ => true
  | .error _ => false

/-! # Theorems

General toolkit: string plumbing, occurrence counting, containment. -/

theorem data_append (a b : String) : (a ++ b).data = a.data ++ b.data := by
  cases a with
  | mk d1 => cases b with
    | mk d2 => exact congrArg (d1 ++ ·) rfl

theorem strContains_parts (s pre mid post : String) (h : s = pre ++ mid ++ post) :
    StrContains s mid := by
  subst h
  show mid.data <:+: _
  rw [data_append, data_append]
  exact List.infix_append _ _ _

theorem strContains_widen (s pre t post : String) (pat : String) (h : StrContains t pat)
    (hs : s = pre ++ t ++ post) : StrContains s pat := by
  subst hs
  refine List.IsInfix.trans h ?_
  rw [data_append, data_append]
  exact List.infix_append _ _ _

theorem prefix_append_iff_left {pat l : List Char} (r : List Char) (h : pat.length ≤ l.length) :
    pat <+: l ++ r ↔ pat <+: l := by
  constructor
  · intro hp
    rw [List.prefix_iff_eq_take] at hp ⊢
    rwa [List.take_append_of_le_length h] at hp
  · intro hp
    exact hp.trans (List.prefix_append l r)

theorem prefix_of_append_short {s b pat : List Char} (hl : s.length ≤ pat.length)
    (hp : pat <+: s ++ b) : s <+: pat := by
  rcases hp with ⟨r, hr⟩
  have htake : (pat ++ r).take s.length = (s ++ b).take s.length := by rw [hr]
  rw [List.take_left, List.take_append_of_le_length hl] at htake
  rw [List.prefix_iff_eq_take]
  exact htake.symm

theorem countOcc_append (pat a b : List Char)
    (H : ∀ s₂, s₂ <:+ a → s₂ ≠ [] → s₂.length < pat.length → ¬ s₂ <+: pat) :
    countOcc pat (a ++ b) = countOcc pat a + countOcc pat b := by
  induction a with
  | nil => simp [countOcc]
  | cons x a ih =>
    have H' : ∀ s₂, s₂ <:+ a → s₂ ≠ [] → s₂.length < pat.length → ¬ s₂ <+: pat :=
      fun s hs => H s (hs.trans (List.suffix_cons x a))
    have hstep : pat.isPrefixOf (x :: (a ++ b)) = pat.isPrefixOf (x :: a) := by
      rcases le_or_lt pat.length (x :: a).length with hle | hlt
      · rw [Bool.eq_iff_iff]
        simp only [ List.isPrefixOf_iff_prefix]
        have := @prefix_append_iff_left pat (x :: a) b hle
        simpa using this
      · have h1 : pat.isPrefixOf (x :: a) = false := by
          rw [Bool.eq_false_iff]
          intro hc
          have hlen := (List.isPrefixOf_iff_prefix.mp hc).length_le
          omega
        have h2 : pat.isPrefixOf (x :: (a ++ b)) = false := by
          rw [Bool.eq_false_iff]
          intro hc
          have hp : pat <+: (x :: a) ++ b := by
            simpa using List.isPrefixOf_iff_prefix.mp hc
          have hsp : (x :: a) <+: pat := prefix_of_append_short (Nat.le_of_lt hlt) hp
          exact H (x :: a) List.suffix_rfl (List.cons_ne_nil x a) hlt hsp
        rw [h1, h2]
    simp only [List.cons_append, countOcc, List.append_eq]
    simp only [hstep, ih H']
    omega

theorem noStraddle_of_not_mem {pat a : List Char} {c0 : Char} (hpat : pat.head? = some c0)
    (hc : c0 ∉ a) :
    ∀ s₂, s₂ <:+ a → s₂ ≠ [] → s₂.length < pat.length → ¬ s₂ <+: pat := by
  intro s hs hne _ hp
  rcases s with _ | ⟨c, t⟩
  · exact hne rfl
  · rcases pat with _ | ⟨p0, pt⟩
    · simp at hpat
    · have hcp : c = p0 := (List.cons_prefix_cons.mp hp).1
      have hp0 : p0 = c0 := by simpa using hpat
      refine hc ?_
      have : c ∈ c :: t := List.mem_cons_self c t
      have hmem := hs.subset this
      rwa [hcp, hp0] at hmem

theorem noStraddle_of_safe_tail {pat t a : List Char} (ht : t <:+ a)
    (hlen : pat.length ≤ t.length + 1)
    (hconc : ∀ s₂ ∈ t.tails, s₂ = [] ∨ ¬ s₂ <+: pat) :
    ∀ s₂, s₂ <:+ a → s₂ ≠ [] → s₂.length < pat.length → ¬ s₂ <+: pat := by
  intro s hs hne hl
  have hle : s.length ≤ t.length := by omega
  have hst : s <:+ t := by
    rcases List.suffix_or_suffix_of_suffix hs ht with h | h
    · exact h
    · have heq : t = s := h.eq_of_length_le hle
      rw [heq]
  rcases hconc s ((List.mem_tails _ _).mpr hst) with h | h
  · exact absurd h hne
  · exact h

theorem countOcc_zero_of_not_mem {pat s : List Char} {c0 : Char} (hpat : pat.head? = some c0)
    (hc : c0 ∉ s) : countOcc pat s = 0 := by
  induction s with
  | nil => rfl
  | cons c rest ih =>
    have hcr : c0 ∉ rest := fun h => hc (List.mem_cons_of_mem _ h)
    have hcc : c ≠ c0 := fun h => hc (h ▸ List.mem_cons_self _ _)
    rcases pat with _ | ⟨p0, pt⟩
    · simp at hpat
    · have hp0 : p0 = c0 := by simpa using hpat
      have hbeq : (p0 == c) = false := by
        rw [beq_eq_false_iff_ne]
        intro h
        exact hcc (by rw [← h, hp0])
      simp only [countOcc, ih hcr]
      simp [List.isPrefixOf, hbeq]

/-! Character-set facts: none of the interpolated fragments can contain `<`,
except raw display names, for which the listing claims carry a hypothesis. -/

theorem digitChar_ne_lt {k : Nat} (hk : k < 10) : digitChar k ≠ '<' := by
  interval_cases k <;> decide

theorem natDigitsCore_ne_lt (fuel : Nat) : ∀ n, ∀ c ∈ natDigitsCore fuel n, c ≠ '<' := by
  induction fuel with
  | zero =>
    intro n c hc
    simp [natDigitsCore] at hc
  | succ fuel ih =>
    intro n c hc
    unfold natDigitsCore at hc
    split at hc
    · next h =>
      simp only [List.mem_singleton] at hc
      subst hc
      exact digitChar_ne_lt h
    · next h =>
      rw [List.mem_append] at hc
      rcases hc with hc | hc
      · exact ih (n / 10) c hc
      · simp only [List.mem_singleton] at hc
        subst hc
        exact digitChar_ne_lt (Nat.mod_lt _ (by omega))

theorem natDigits_ne_lt (n : Nat) : ∀ c ∈ natDigits n, c ≠ '<' :=
  natDigitsCore_ne_lt (n + 1) n

theorem natToStr_not_lt (n : Nat) : '<' ∉ (natToStr n).data := by
  intro h
  exact natDigits_ne_lt n '<' h rfl

theorem pad2_not_lt (n : Nat) : '<' ∉ (pad2 n).data := by
  unfold pad2
  split
  · rw [data_append, List.mem_append]
    rintro (h | h)
    · simp at h
    · exact natToStr_not_lt n h
  · exact natToStr_not_lt n

theorem weekdayName_not_lt (n : Nat) : '<' ∉ (weekdayName n).data := by
  rcases n with _ | _ | _ | _ | _ | _ | n
  case succ.succ.succ.succ.succ.succ =>
    exact (by decide : '<' ∉ ("Sat" : String).data)
  all_goals decide

theorem monthName_not_lt (n : Nat) : '<' ∉ (monthName n).data := by
  rcases n with _ | _ | _ | _ | _ | _ | _ | _ | _ | _ | _ | _ | n
  case succ.succ.succ.succ.succ.succ.succ.succ.succ.succ.succ.succ =>
    exact (by decide : '<' ∉ ("Dec" : String).data)
  all_goals decide

theorem str_not_mem_append {c : Char} {a b : String} (ha : c ∉ a.data) (hb : c ∉ b.data) :
    c ∉ (a ++ b).data := by
  rw [data_append, List.mem_append]
  rintro (h | h)
  · exact ha h
  · exact hb h

theorem toUTCString_not_lt (ms : Nat) : '<' ∉ (toUTCString ms).data := by
  unfold toUTCString
  repeat' apply str_not_mem_append
  all_goals
    first
      | exact weekdayName_not_lt _
      | exact monthName_not_lt _
      | exact pad2_not_lt _
      | exact natToStr_not_lt _
      | decide

theorem hexDigitChar_ne_lt (n : Nat) : hexDigitChar n ≠ '<' := by
  rcases n with _ | _ | _ | _ | _ | _ | _ | _ | _ | _ | _ | _ | _ | _ | _ | n
  case succ.succ.succ.succ.succ.succ.succ.succ.succ.succ.succ.succ.succ.succ.succ =>
    exact (by decide : ('F' : Char) ≠ '<')
  all_goals decide

theorem encodeURIList_not_lt (l : List Char) : '<' ∉ encodeURIList l := by
  induction l with
  | nil => simp [encodeURIList]
  | cons c rest ih =>
    unfold encodeURIList
    rw [List.mem_append]
    rintro (h | h)
    · by_cases ha : encodeURIAllowed c
      · rw [if_pos ha] at h
        simp only [List.mem_singleton] at h
        rw [← h] at ha
        exact absurd ha (by decide)
      · rw [if_neg ha] at h
        simp only [pctEncodeChar, List.mem_cons] at h
        rcases h with h | h | h | h
        · simp at h
        · exact hexDigitChar_ne_lt _ h.symm
        · exact hexDigitChar_ne_lt _ h.symm
        · simp at h
    · exact ih h

theorem encodeURI_not_lt (s : String) : '<' ∉ (encodeURI s).data :=
  encodeURIList_not_lt s.data

/-! Facts about `splitOnChar`, used for the display-name claims. -/

theorem splitOnChar_ne_nil (sep : Char) (l : List Char) : splitOnChar sep l ≠ [] := by
  cases l with
  | nil => simp [splitOnChar]
  | cons c rest =>
    cases h : splitOnChar sep rest with
    | nil => simp [splitOnChar, h]
    | cons hd tl =>
      simp only [splitOnChar, h]
      split <;> simp

theorem mem_of_mem_splitOnChar {sep : Char} {l piece : List Char}
    (hp : piece ∈ splitOnChar sep l) {c : Char} (hc : c ∈ piece) : c ∈ l := by
  induction l generalizing piece with
  | nil =>
    simp only [splitOnChar, List.mem_singleton] at hp
    subst hp
    simp at hc
  | cons x rest ih =>
    cases h : splitOnChar sep rest with
    | nil => exact absurd h (splitOnChar_ne_nil sep rest)
    | cons hd tl =>
      simp only [splitOnChar, h] at hp
      split at hp
      · rcases List.mem_cons.mp hp with rfl | hp'
        · simp at hc
        · exact List.mem_cons_of_mem _ (ih (h ▸ hp') hc)
      · rcases List.mem_cons.mp hp with rfl | hp'
        · rcases List.mem_cons.mp hc with rfl | hc'
          · exact List.mem_cons_self _ _
          · have hhd : hd ∈ splitOnChar sep rest := by
              rw [h]
              exact List.mem_cons_self _ _
            exact List.mem_cons_of_mem _ (ih hhd hc')
        · have hp2 : piece ∈ splitOnChar sep rest := by
            rw [h]
            exact List.mem_cons_of_mem _ hp'
          exact List.mem_cons_of_mem _ (ih hp2 hc)

theorem splitOnChar_cons_eq {sep c : Char} {rest hd : List Char}
    {tl : List (List Char)} (h : splitOnChar sep rest = hd :: tl) :
    splitOnChar sep (c :: rest) = if c = sep then [] :: hd :: tl else (c :: hd) :: tl := by
  rw [splitOnChar.eq_2, h]

theorem splitOnChar_getLast_ne_nil {sep : Char} {l : List Char} (hne : l ≠ [])
    (hlast : l.getLast? ≠ some sep) :
    ∀ x, (splitOnChar sep l).getLast? = some x → x ≠ [] := by
  induction l with
  | nil => exact absurd rfl hne
  | cons c rest ih =>
    cases rest with
    | nil =>
      have hc : c ≠ sep := by
        intro h
        exact hlast (by simp [h])
      intro x hx
      have hone : splitOnChar sep [c] = [[c]] := by
        rw [splitOnChar_cons_eq (show splitOnChar sep [] = [] :: [] from rfl), if_neg hc]
      rw [hone] at hx
      simp only [List.getLast?_singleton, Option.some.injEq] at hx
      subst hx
      simp
    | cons d rest2 =>
      have hlast2 : (d :: rest2).getLast? ≠ some sep := by
        rwa [List.getLast?_cons_cons] at hlast
      cases h : splitOnChar sep (d :: rest2) with
      | nil => exact absurd h (splitOnChar_ne_nil _ _)
      | cons hd tl =>
        intro x hx
        rw [splitOnChar_cons_eq h] at hx
        by_cases hc : c = sep
        · rw [if_pos hc, List.getLast?_cons_cons] at hx
          refine ih (List.cons_ne_nil _ _) hlast2 x ?_
          rw [h]
          exact hx
        · rw [if_neg hc] at hx
          cases tl with
          | nil =>
            simp only [List.getLast?_singleton, Option.some.injEq] at hx
            subst hx
            simp
          | cons t0 ts =>
            rw [List.getLast?_cons_cons] at hx
            refine ih (List.cons_ne_nil _ _) hlast2 x ?_
            rw [h, List.getLast?_cons_cons]
            exact hx

theorem filter_getLast_of_ne_nil {L : List (List Char)} {x : List Char}
    (hx : L.getLast? = some x) (hne : x ≠ []) :
    (L.filter (fun l => l ≠ [])).getLast? = some x := by
  have hxm : x ∈ L.getLast? := by rw [hx]; rfl
  have hL := List.dropLast_append_getLast? x hxm
  have hsplit : L.filter (fun l => l ≠ []) = (L.dropLast.filter (fun l => l ≠ [])) ++ [x] := by
    conv_lhs => rw [← hL]
    rw [List.filter_append]
    simp [hne]
  rw [hsplit, List.getLast?_concat]

theorem collDisplayName_spec {p : String} (hne : p.data ≠ []) (hroot : p ≠ "/")
    (hlast : p.data.getLast? ≠ some '/') :
    lastNonEmptySeg p = some (collDisplayName p) := by
  unfold collDisplayName lastNonEmptySeg
  rw [if_neg hroot]
  cases h : (splitOnChar '/' p.data).getLast? with
  | none =>
    exact absurd (List.getLast?_eq_none_iff.mp h) (splitOnChar_ne_nil '/' p.data)
  | some x =>
    have hx_ne : x ≠ [] := splitOnChar_getLast_ne_nil hne hlast x h
    rw [filter_getLast_of_ne_nil h hx_ne]
    simp [h]

theorem childDisplayName_eq {key seg : String} (h : lastNonEmptySeg key = some seg) :
    childDisplayName key = seg := by
  unfold childDisplayName
  unfold lastNonEmptySeg at h
  cases hg : ((splitOnChar '/' key.data).filter (fun l => l ≠ [])).getLast? with
  | none => rw [hg] at h; simp at h
  | some l =>
    rw [hg] at h
    simp only [Option.map_some'] at h
    exact Option.some.inj h

theorem childDisplayName_not_lt {key : String} (hk : '<' ∉ key.data) :
    '<' ∉ (childDisplayName key).data := by
  unfold childDisplayName
  cases hg : ((splitOnChar '/' key.data).filter (fun l => l ≠ [])).getLast? with
  | none => exact hk
  | some l =>
    intro hc
    have hlmem := List.mem_of_getLast?_eq_some hg
    have hl := (List.mem_filter.mp hlmem).1
    exact hk (mem_of_mem_splitOnChar hl hc)

theorem collDisplayName_not_lt {p : String} (hp : '<' ∉ p.data) :
    '<' ∉ (collDisplayName p).data := by
  unfold collDisplayName
  split
  · decide
  · cases hg : (splitOnChar '/' p.data).getLast? with
    | none => simp [hg]
    | some l =>
      simp only [hg, Option.getD_some]
      intro hc
      have hlmem := List.mem_of_getLast?_eq_some hg
      exact hp (mem_of_mem_splitOnChar hlmem hc)

/-! Counting `<D:response>` occurrences in the generated XML. -/

theorem countOcc_append_tails (pat a b : List Char)
    (hconc : ∀ s₂ ∈ a.tails, s₂ = [] ∨ ¬ s₂ <+: pat) :
    countOcc pat (a ++ b) = countOcc pat a + countOcc pat b :=
  countOcc_append pat a b (fun s hs hne _ => by
    rcases hconc s ((List.mem_tails _ _).mpr hs) with h | h
    · exact absurd h hne
    · exact h)

theorem countOcc_append_var (pat : List Char) (hpat : pat.head? = some '<')
    {a : List Char} (b : List Char) (hc : '<' ∉ a) :
    countOcc pat (a ++ b) = countOcc pat b := by
  rw [countOcc_append pat a b (noStraddle_of_not_mem hpat hc),
    countOcc_zero_of_not_mem hpat hc]
  omega

theorem href_not_lt (key : String) : '<' ∉ (encodeURI ("/" ++ key)).data :=
  encodeURI_not_lt _

theorem countOcc_childBlock_data (o : ObjEntry) (hk : '<' ∉ o.key.data) :
    countOcc "<D:response>".data (childBlock o).data = 1 := by
  have hhref : '<' ∉ (encodeURI ("/" ++ o.key)).data := href_not_lt o.key
  have hname : '<' ∉ (childDisplayName o.key).data := childDisplayName_not_lt hk
  have hsize : '<' ∉ (natToStr o.size).data := natToStr_not_lt o.size
  have hdate : '<' ∉ (toUTCString o.uploaded).data := toUTCString_not_lt o.uploaded
  unfold childBlock
  by_cases hf : o.key.data.getLast? = some '/'
  · rw [if_pos hf]
    simp only [data_append, List.append_assoc]
    rw [countOcc_append_tails "<D:response>".data "\n  <D:response>\n    ".data _
      (by decide)]
    rw [countOcc_append_tails "<D:response>".data "<D:href>".data _ (by decide)]
    rw [countOcc_append_var "<D:response>".data (by decide) _ hhref]
    rw [countOcc_append_tails "<D:response>".data "</D:href>".data _ (by decide)]
    rw [countOcc_append_tails "<D:response>".data
      "\n    <D:propstat>\n      <D:prop>\n        ".data _ (by decide)]
    rw [countOcc_append_tails "<D:response>".data
      "<D:resourcetype><D:collection/></D:resourcetype>".data _ (by decide)]
    rw [countOcc_append_tails "<D:response>".data "\n        ".data _ (by decide)]
    rw [countOcc_append_tails "<D:response>".data "<D:displayname>".data _ (by decide)]
    rw [countOcc_append_var "<D:response>".data (by decide) _ hname]
    rw [countOcc_append_tails "<D:response>".data "</D:displayname>".data _ (by decide)]
    rw [countOcc_append_tails "<D:response>".data "\n        ".data _ (by decide)]
    rw [countOcc_append_tails "<D:response>".data "<D:getcontentlength>".data _ (by decide)]
    rw [countOcc_append_var "<D:response>".data (by decide) _ hsize]
    rw [countOcc_append_tails "<D:response>".data "</D:getcontentlength>".data _ (by decide)]
    rw [countOcc_append_tails "<D:response>".data "\n        ".data _ (by decide)]
    rw [countOcc_append_tails "<D:response>".data "<D:getlastmodified>".data _ (by decide)]
    rw [countOcc_append_var "<D:response>".data (by decide) _ hdate]
    decide
  · rw [if_neg hf]
    simp only [data_append, List.append_assoc]
    rw [countOcc_append_tails "<D:response>".data "\n  <D:response>\n    ".data _
      (by decide)]
    rw [countOcc_append_tails "<D:response>".data "<D:href>".data _ (by decide)]
    rw [countOcc_append_var "<D:response>".data (by decide) _ hhref]
    rw [countOcc_append_tails "<D:response>".data "</D:href>".data _ (by decide)]
    rw [countOcc_append_tails "<D:response>".data
      "\n    <D:propstat>\n      <D:prop>\n        ".data _ (by decide)]
    rw [countOcc_append_tails "<D:response>".data "<D:resourcetype/>".data _ (by decide)]
    rw [countOcc_append_tails "<D:response>".data "\n        ".data _ (by decide)]
    rw [countOcc_append_tails "<D:response>".data "<D:displayname>".data _ (by decide)]
    rw [countOcc_append_var "<D:response>".data (by decide) _ hname]
    rw [countOcc_append_tails "<D:response>".data "</D:displayname>".data _ (by decide)]
    rw [countOcc_append_tails "<D:response>".data "\n        ".data _ (by decide)]
    rw [countOcc_append_tails "<D:response>".data "<D:getcontentlength>".data _ (by decide)]
    rw [countOcc_append_var "<D:response>".data (by decide) _ hsize]
    rw [countOcc_append_tails "<D:response>".data "</D:getcontentlength>".data _ (by decide)]
    rw [countOcc_append_tails "<D:response>".data "\n        ".data _ (by decide)]
    rw [countOcc_append_tails "<D:response>".data "<D:getlastmodified>".data _ (by decide)]
    rw [countOcc_append_var "<D:response>".data (by decide) _ hdate]
    decide

theorem countOcc_collectionBlock_data (p : String) (hp : '<' ∉ p.data) :
    countOcc "<D:response>".data (collectionBlock p).data = 1 := by
  have hhref : '<' ∉ (encodeURI p).data := encodeURI_not_lt p
  have hname : '<' ∉ (collDisplayName p).data := collDisplayName_not_lt hp
  unfold collectionBlock
  simp only [data_append, List.append_assoc]
  rw [countOcc_append_tails "<D:response>".data
    "<?xml version=\"1.0\" encoding=\"utf-8\" ?>\n<D:multistatus xmlns:D=\"DAV:\">\n  <D:response>\n    ".data
    _ (by decide)]
  rw [countOcc_append_tails "<D:response>".data "<D:href>".data _ (by decide)]
  rw [countOcc_append_var "<D:response>".data (by decide) _ hhref]
  rw [countOcc_append_tails "<D:response>".data "</D:href>".data _ (by decide)]
  rw [countOcc_append_tails "<D:response>".data
    "\n    <D:propstat>\n      <D:prop>\n        <D:resourcetype><D:collection/></D:resourcetype>\n        ".data
    _ (by decide)]
  rw [countOcc_append_tails "<D:response>".data "<D:displayname>".data _ (by decide)]
  rw [countOcc_append_var "<D:response>".data (by decide) _ hname]
  decide

theorem suffix_extend {l b : List Char} (a : List Char) (h : l <:+ b) : l <:+ a ++ b := by
  rcases h with ⟨t, rfl⟩
  exact ⟨a ++ t, by simp [List.append_assoc]⟩

theorem childBlock_tail_suffix (o : ObjEntry) :
    ("D:response>".data : List Char) <:+ (childBlock o).data := by
  unfold childBlock
  simp only [data_append, List.append_assoc]
  iterate 18 apply suffix_extend
  decide

theorem collectionBlock_tail_suffix (p : String) :
    ("D:response>".data : List Char) <:+ (collectionBlock p).data := by
  unfold collectionBlock
  simp only [data_append, List.append_assoc]
  iterate 8 apply suffix_extend
  decide

theorem countOcc_concat_footer (objs : List ObjEntry)
    (hkeys : ∀ o ∈ objs, '<' ∉ o.key.data) :
    countOcc "<D:response>".data ((concatBlocks objs).data ++ "\n</D:multistatus>".data)
      = objs.length := by
  induction objs with
  | nil =>
    show countOcc _ ((("" : String)).data ++ _) = 0
    decide
  | cons o rest ih =>
    have hk := hkeys o (List.mem_cons_self _ _)
    have hkr : ∀ o2 ∈ rest, '<' ∉ o2.key.data := fun o2 h => hkeys o2 (List.mem_cons_of_mem _ h)
    show countOcc _ ((childBlock o ++ concatBlocks rest).data ++ _) = _
    rw [data_append, List.append_assoc]
    rw [countOcc_append "<D:response>".data (childBlock o).data _
      (noStraddle_of_safe_tail (childBlock_tail_suffix o) (by decide) (by decide))]
    rw [countOcc_childBlock_data o hk, ih hkr]
    simp only [List.length_cons]
    omega

theorem countOcc_body (p : String) (objs : List ObjEntry) (hp : '<' ∉ p.data)
    (hkeys : ∀ o ∈ objs, '<' ∉ o.key.data) :
    countSubstr "<D:response>"
      (collectionBlock p ++ concatBlocks objs ++ "\n</D:multistatus>") = 1 + objs.length := by
  unfold countSubstr
  simp only [data_append, List.append_assoc]
  rw [countOcc_append "<D:response>".data (collectionBlock p).data _
    (noStraddle_of_safe_tail (collectionBlock_tail_suffix p) (by decide) (by decide))]
  rw [countOcc_collectionBlock_data p hp, countOcc_concat_footer objs hkeys]

/-! Containment of the individual property elements in the generated XML. -/

theorem infix_extend_left {l b : List Char} (a : List Char) (h : l <:+: b) : l <:+: a ++ b := by
  rcases h with ⟨s, t, rfl⟩
  exact ⟨a ++ s, t, by simp [List.append_assoc]⟩

theorem infix_extend_right {l b : List Char} (c : List Char) (h : l <:+: b) : l <:+: b ++ c := by
  rcases h with ⟨s, t, rfl⟩
  exact ⟨s, t ++ c, by simp [List.append_assoc]⟩

theorem prefix_chain3 (a b c r : List Char) : (a ++ (b ++ c)) <+: a ++ (b ++ (c ++ r)) :=
  ⟨r, by simp [List.append_assoc]⟩

theorem childBlock_contains_folder_marker (o : ObjEntry)
    (hf : o.key.data.getLast? = some '/') :
    StrContains (childBlock o) "<D:resourcetype><D:collection/></D:resourcetype>" := by
  show _ <:+: _
  unfold childBlock
  rw [if_pos hf]
  simp only [data_append, List.append_assoc]
  iterate 5 apply infix_extend_left
  exact (List.prefix_append _ _).isInfix

theorem childBlock_contains_file_marker (o : ObjEntry)
    (hf : ¬ o.key.data.getLast? = some '/') :
    StrContains (childBlock o) "<D:resourcetype/>" := by
  show _ <:+: _
  unfold childBlock
  rw [if_neg hf]
  simp only [data_append, List.append_assoc]
  iterate 5 apply infix_extend_left
  exact (List.prefix_append _ _).isInfix

theorem childBlock_contains_displayname (o : ObjEntry) :
    StrContains (childBlock o)
      ("<D:displayname>" ++ childDisplayName o.key ++ "</D:displayname>") := by
  show _ <:+: _
  unfold childBlock
  simp only [data_append, List.append_assoc]
  iterate 7 apply infix_extend_left
  exact (prefix_chain3 _ _ _ _).isInfix

theorem childBlock_contains_contentlength (o : ObjEntry) :
    StrContains (childBlock o)
      ("<D:getcontentlength>" ++ natToStr o.size ++ "</D:getcontentlength>") := by
  show _ <:+: _
  unfold childBlock
  simp only [data_append, List.append_assoc]
  iterate 11 apply infix_extend_left
  exact (prefix_chain3 _ _ _ _).isInfix

theorem childBlock_contains_lastmodified (o : ObjEntry) :
    StrContains (childBlock o)
      ("<D:getlastmodified>" ++ toUTCString o.uploaded ++ "</D:getlastmodified>") := by
  show _ <:+: _
  unfold childBlock
  simp only [data_append, List.append_assoc]
  iterate 15 apply infix_extend_left
  exact (prefix_chain3 _ _ _ _).isInfix

theorem collectionBlock_contains_href (p : String) :
    StrContains (collectionBlock p) ("<D:href>" ++ encodeURI p ++ "</D:href>") := by
  show _ <:+: _
  unfold collectionBlock
  simp only [data_append, List.append_assoc]
  iterate 1 apply infix_extend_left
  exact (prefix_chain3 _ _ _ _).isInfix

theorem collectionBlock_contains_displayname (p : String) :
    StrContains (collectionBlock p)
      ("<D:displayname>" ++ collDisplayName p ++ "</D:displayname>") := by
  show _ <:+: _
  unfold collectionBlock
  simp only [data_append, List.append_assoc]
  iterate 5 apply infix_extend_left
  exact (prefix_chain3 _ _ _ _).isInfix

theorem childBlock_infix_concat {objs : List ObjEntry} {o : ObjEntry} (ho : o ∈ objs) :
    (childBlock o).data <:+: (concatBlocks objs).data := by
  induction objs with
  | nil => simp at ho
  | cons o2 rest ih =>
    rcases List.mem_cons.mp ho with rfl | ho2
    · show _ <:+: ((childBlock o ++ concatBlocks rest)).data
      rw [data_append]
      exact (List.prefix_append _ _).isInfix
    · show _ <:+: ((childBlock o2 ++ concatBlocks rest)).data
      rw [data_append]
      exact infix_extend_left _ (ih ho2)

theorem strContains_body_child {pathname : String} {objs : List ObjEntry} {o : ObjEntry}
    (ho : o ∈ objs) :
    StrContains (handleFileList pathname (.ok objs)).response.body (childBlock o) := by
  show (childBlock o).data <:+:
    ((collectionBlock (normalizeListPath pathname) ++ concatBlocks objs ++
      "\n</D:multistatus>")).data
  simp only [data_append, List.append_assoc]
  apply infix_extend_left
  exact infix_extend_right _ (childBlock_infix_concat ho)

/-! `jsIncludes`, percent-decoding and the canonicalization contract. -/

theorem str_eq_of_data {a b : String} (h : a.data = b.data) : a = b := by
  cases a
  cases b
  exact congrArg String.mk h

theorem listContainsSub_iff (pat s : List Char) : listContainsSub pat s = true ↔ pat <:+: s := by
  induction s with
  | nil =>
    simp only [listContainsSub, List.isEmpty_iff, List.infix_nil]
  | cons c rest ih =>
    unfold listContainsSub
    rw [Bool.or_eq_true, ih, List.infix_cons_iff]
    simp [ List.isPrefixOf_iff_prefix]

theorem jsIncludes_iff (s sub : String) : jsIncludes s sub = true ↔ sub.data <:+: s.data :=
  listContainsSub_iff _ _

theorem jsIncludes_false_iff (s sub : String) :
    jsIncludes s sub = false ↔ ¬ sub.data <:+: s.data := by
  rw [← jsIncludes_iff]
  cases jsIncludes s sub <;> simp

theorem percentDecodeList_id {l : List Char} (h : '%' ∉ l) : percentDecodeList l = some l := by
  induction l with
  | nil => rfl
  | cons c rest ih =>
    have hc : c ≠ '%' := fun hh => h (hh ▸ List.mem_cons_self _ _)
    have hr : '%' ∉ rest := fun hh => h (List.mem_cons_of_mem _ hh)
    unfold percentDecodeList
    rw [if_neg hc, ih hr]
    rfl

theorem dropWhile_idem (p : Char → Bool) (l : List Char) :
    (l.dropWhile p).dropWhile p = l.dropWhile p := by
  induction l with
  | nil => rfl
  | cons c rest ih =>
    by_cases hc : p c
    · rw [List.dropWhile_cons_of_pos hc]
      exact ih
    · rw [List.dropWhile_cons_of_neg hc, List.dropWhile_cons_of_neg hc]

theorem canonicalize_idem {x y : String} (hxy : canonicalize x = some y)
    (hpct : '%' ∉ y.data) (hblank : jsTrim y ≠ "") :
    canonicalize y = some y := by
  unfold canonicalize at hxy ⊢
  cases hdec : decodeURIComponent x with
  | none => rw [hdec] at hxy; simp at hxy
  | some d =>
    rw [hdec] at hxy
    dsimp only at hxy
    by_cases hchk : canonCheck d = true
    · rw [if_pos hchk] at hxy
      simp at hxy
    · rw [if_neg hchk] at hxy
      have hy : y = stripLeadingSlashes d := by
        have := Option.some.inj hxy
        exact this.symm
      have hdecy : decodeURIComponent y = some y := by
        unfold decodeURIComponent
        rw [percentDecodeList_id hpct]
        rfl
      rw [hdecy]
      dsimp only
      have hysuf : y.data <:+ d.data := by
        rw [hy]
        exact List.dropWhile_suffix _
      have hdno : jsIncludes d ".." = false := by
        unfold canonCheck at hchk
        rw [Bool.or_eq_true] at hchk
        push_neg at hchk
        exact Bool.eq_false_iff.mpr hchk.1
      have hyno : jsIncludes y ".." = false := by
        rw [jsIncludes_false_iff]
        intro hc
        rw [jsIncludes_false_iff] at hdno
        exact hdno (hc.trans hysuf.isInfix)
      have hchky : canonCheck y = false := by
        unfold canonCheck
        rw [hyno]
        simp [hblank]
      rw [if_neg (by rw [hchky]; exact Bool.false_ne_true)]
      rw [hy]
      unfold stripLeadingSlashes
      exact congrArg some (str_eq_of_data (dropWhile_idem _ _))

/-! The DELETE handler's parent-directory computation matches the spec-side
"everything before the last slash" reading. -/

theorem singleton_infix_iff (c : Char) (l : List Char) : [c] <:+: l ↔ c ∈ l := by
  constructor
  · rintro ⟨s, t, rfl⟩
    simp
  · intro h
    rcases List.append_of_mem h with ⟨s, t, rfl⟩
    exact ⟨s, t, by simp⟩

theorem jsIncludes_slash_iff (fp : String) : jsIncludes fp "/" = true ↔ '/' ∈ fp.data := by
  rw [jsIncludes_iff]
  exact singleton_infix_iff '/' fp.data

theorem exists_last_occurrence {c : Char} {l : List Char} (h : c ∈ l) :
    ∃ a b, l = a ++ c :: b ∧ c ∉ b := by
  induction l with
  | nil => simp at h
  | cons x rest ih =>
    by_cases hr : c ∈ rest
    · rcases ih hr with ⟨a, b, rfl, hb⟩
      exact ⟨x :: a, b, rfl, hb⟩
    · have hx : x = c := by
        rcases List.mem_cons.mp h with h1 | h1
        · exact h1.symm
        · exact absurd h1 hr
      subst hx
      exact ⟨[], rest, rfl, hr⟩

theorem lastIdxOf_of_not_mem {c : Char} {l : List Char} (h : c ∉ l) : lastIdxOf c l = none := by
  induction l with
  | nil => rfl
  | cons x rest ih =>
    have hx : x ≠ c := fun hh => h (hh ▸ List.mem_cons_self _ _)
    have hr : c ∉ rest := fun hh => h (List.mem_cons_of_mem _ hh)
    unfold lastIdxOf
    rw [ih hr, if_neg hx]

theorem lastIdxOf_append {c : Char} {a b : List Char} (hb : c ∉ b) :
    lastIdxOf c (a ++ c :: b) = some a.length := by
  induction a with
  | nil =>
    show lastIdxOf c (c :: b) = some 0
    unfold lastIdxOf
    rw [lastIdxOf_of_not_mem hb, if_pos rfl]
  | cons x a ih =>
    show lastIdxOf c (x :: (a ++ c :: b)) = some (a.length + 1)
    unfold lastIdxOf
    rw [ih]

theorem specParent_decomp {a b : List Char} (hb : '/' ∉ b) :
    ((((a ++ '/' :: b).reverse.dropWhile (fun c => c ≠ '/')).drop 1).reverse) = a := by
  rw [List.reverse_append, List.reverse_cons, List.append_assoc]
  rw [List.dropWhile_append_of_pos (by
    intro x hx
    have : x ≠ '/' := fun hh => hb (by
      have := List.mem_reverse.mp hx
      rwa [hh] at this)
    simp [this])]
  rw [List.singleton_append, List.dropWhile_cons_of_neg (by simp)]
  simp

theorem deleteDir_eq_specParent (fp : String) : deleteDir fp = "/" ++ specParent fp := by
  unfold deleteDir specParent
  by_cases hm : '/' ∈ fp.data
  · rw [if_pos ((jsIncludes_slash_iff fp).mpr hm), if_pos hm]
    rcases exists_last_occurrence hm with ⟨a, b, hab, hb⟩
    rw [hab, lastIdxOf_append hb, specParent_decomp hb]
    cases a with
    | nil =>
      dsimp only
      rw [if_neg (by simp)]
      apply str_eq_of_data
      rfl
    | cons x a2 =>
      have hpos : 0 < (x :: a2).length := by simp
      dsimp only
      rw [if_pos hpos, List.take_left]
  · have hj : jsIncludes fp "/" = false := by
      rw [jsIncludes_false_iff]
      intro hc
      exact hm ((singleton_infix_iff '/' fp.data).mp hc)
    rw [if_neg (by rw [hj]; exact Bool.false_ne_true), if_neg hm]
    apply str_eq_of_data
    rfl

/-! The bulk-upload loop, processed item by item. -/

theorem processEntries_nil (mime : String → Option String) (md origin : String)
    (results : List ResultEntry) (ops : List StoreOp) (evs : List String) :
    processEntries mime md origin [] results ops evs =
      ⟨⟨200, jsonStringify results⟩, results, ops, evs⟩ := rfl

theorem processEntries_cons_field (mime : String → Option String) (md origin n v : String)
    (rest : List FormEntry) (results : List ResultEntry) (ops : List StoreOp)
    (evs : List String) :
    processEntries mime md origin (.field n v :: rest) results ops evs =
      processEntries mime md origin rest results ops evs := rfl

theorem processEntries_cons_file_ok (mime : String → Option String) (md origin fn : String)
    (u : Unit) (rest : List FormEntry) (results : List ResultEntry) (ops : List StoreOp)
    (evs : List String)
    (hdd : jsIncludes fn ".." = false) (hsan : ¬ stripLeadingSlashes fn = "") :
    processEntries mime md origin (.file fn (Except.ok u) :: rest) results ops evs =
      processEntries mime md origin rest
        (results ++ [[("sanitizedFilename", stripLeadingSlashes fn), ("status", "success"),
          ("contentType", (mime (extOf fn)).getD md)]])
        (ops ++ [.put (stripLeadingSlashes fn) ((mime (extOf fn)).getD md)])
        (evs ++ [origin ++ "/"]) := by
  conv_lhs => rw [processEntries]
  rw [if_neg (by rw [hdd]; exact Bool.false_ne_true), if_neg hsan]

theorem processEntries_cons_file_error (mime : String → Option String) (md origin fn : String)
    (msg : String) (rest : List FormEntry) (results : List ResultEntry) (ops : List StoreOp)
    (evs : List String)
    (hdd : jsIncludes fn ".." = false) (hsan : ¬ stripLeadingSlashes fn = "") :
    processEntries mime md origin (.file fn (Except.error msg) :: rest) results ops evs =
      processEntries mime md origin rest
        (results ++ [[("filename", fn), ("status", "failed"), ("error", msg)]])
        (ops ++ [.put (stripLeadingSlashes fn) ((mime (extOf fn)).getD md)])
        evs := by
  conv_lhs => rw [processEntries]
  rw [if_neg (by rw [hdd]; exact Bool.false_ne_true), if_neg hsan]

theorem processEntries_cons_file_traversal (mime : String → Option String) (md origin fn : String)
    (r : Except String Unit) (rest : List FormEntry) (results : List ResultEntry)
    (ops : List StoreOp) (evs : List String) (hdd : jsIncludes fn ".." = true) :
    processEntries mime md origin (.file fn r :: rest) results ops evs =
      ⟨⟨400, "Invalid path"⟩, results, ops, evs⟩ := by
  cases r with
  | ok u =>
    conv_lhs => rw [processEntries]
    rw [if_pos hdd]
  | error msg =>
    conv_lhs => rw [processEntries]
    rw [if_pos hdd]

theorem processEntries_cons_file_blank (mime : String → Option String) (md origin fn : String)
    (r : Except String Unit) (rest : List FormEntry) (results : List ResultEntry)
    (ops : List StoreOp) (evs : List String) (hdd : jsIncludes fn ".." = false)
    (hsan : stripLeadingSlashes fn = "") :
    processEntries mime md origin (.file fn r :: rest) results ops evs =
      ⟨⟨400, "Invalid filename"⟩, results, ops, evs⟩ := by
  cases r with
  | ok u =>
    conv_lhs => rw [processEntries]
    rw [if_neg (by rw [hdd]; exact Bool.false_ne_true), if_pos hsan]
  | error msg =>
    conv_lhs => rw [processEntries]
    rw [if_neg (by rw [hdd]; exact Bool.false_ne_true), if_pos hsan]

theorem processEntries_append (mime : String → Option String) (md origin : String)
    (pre tail : List FormEntry) (results : List ResultEntry) (ops : List StoreOp)
    (evs : List String) (hpre : ∀ e ∈ pre, entryOk e = true) :
    processEntries mime md origin (pre ++ tail) results ops evs =
      processEntries mime md origin tail
        (results ++ (fileItems pre).map (expectedEntry mime md))
        (ops ++ (fileItems pre).map (expectedOp mime md))
        (evs ++ expectedEvsAll origin (fileItems pre)) := by
  induction pre generalizing results ops evs with
  | nil => simp [fileItems, expectedEvsAll]
  | cons e pre ih =>
    have hok := hpre e (List.mem_cons_self _ _)
    have hpre2 : ∀ e2 ∈ pre, entryOk e2 = true := fun e2 h => hpre e2 (List.mem_cons_of_mem _ h)
    cases e with
    | field n v =>
      rw [List.cons_append, processEntries_cons_field, ih results ops evs hpre2]
      rfl
    | file fn r =>
      unfold entryOk at hok
      rw [Bool.and_eq_true] at hok
      have hdd : jsIncludes fn ".." = false := by
        have h1 := hok.1
        cases h : jsIncludes fn ".." with
        | false => rfl
        | true => rw [h] at h1; simp at h1
      have hsan : ¬ stripLeadingSlashes fn = "" := by
        have h2 := hok.2
        intro h
        rw [h] at h2
        simp at h2
      cases r with
      | ok u =>
        rw [List.cons_append, processEntries_cons_file_ok mime md origin fn u _ _ _ _ hdd hsan,
          ih _ _ _ hpre2]
        simp only [fileItems, List.map_cons, expectedEntry, expectedOp, expectedEvs,
          expectedEvsAll, List.append_assoc, List.singleton_append, List.nil_append]
      | error msg =>
        rw [List.cons_append,
          processEntries_cons_file_error mime md origin fn msg _ _ _ _ hdd hsan,
          ih _ _ _ hpre2]
        simp only [fileItems, List.map_cons, expectedEntry, expectedOp, expectedEvs,
          expectedEvsAll, List.append_assoc, List.singleton_append, List.nil_append]

/-! The normalized listing path always starts with a slash. -/

theorem normalizeListPath_head (p0 : String) :
    (normalizeListPath p0).data.head? = some '/' := by
  have main : ∀ p : String, p.data.head? = some '/' →
      (if p.data.getLast? = some '/' ∧ p ≠ "/" then (⟨p.data.dropLast⟩ : String)
        else p).data.head? = some '/' := by
    intro p hph
    split
    · next hcond =>
      cases hd : p.data with
      | nil => rw [hd] at hph; simp at hph
      | cons c r =>
        rw [hd] at hph
        have hc : c = '/' := by simpa using hph
        subst hc
        cases r with
        | nil => exact absurd (str_eq_of_data (by rw [hd])) hcond.2
        | cons c2 r2 => rfl
    · exact hph
  unfold normalizeListPath
  refine main (if p0.data.head? = some '/' then p0 else "/" ++ p0) ?_
  split
  · next h => exact h
  · next h =>
    rw [data_append]
    rfl

/-! # Claim theorems -/

/-- Claim C1 (code bug).  The spec requires every fetch/store/delete resource
path whose percent-decoded form contains `..` to be rejected with status 400
and no object-store operation.  `handlePutFile` and `handleDeleteFile` do so,
but `handleGetFile` has no `..` check at all: for `GET /a/../b` it performs
the store lookup on key `a/../b` and answers 404 (or 200), never 400. -/
theorem claim_C1_get_missing_traversal_check :
    decodeURIComponent (⟨("/a/../b" : String).data.drop 1⟩ : String) = some "a/../b"
    ∧ jsIncludes "a/../b" ".." = true
    ∧ handleGetFile "/a/../b" (fun _ => none) (fun _ => none) "application/octet-stream"
        = some ⟨⟨404, "File not found"⟩, [StoreOp.get "a/../b"], []⟩
    ∧ handlePutFile "/a/../b" "https://h" (fun _ => none) (Except.ok ())
        = some ⟨⟨400, "Invalid path"⟩, [], []⟩
    ∧ handleDeleteFile "/a/../b" "https://h" (Except.ok ())
        = some ⟨⟨400, "Invalid path"⟩, [], []⟩ :=
  ⟨rfl, by decide, rfl, rfl, rfl⟩

/-- Claim C5 (code bug).  The spec says the path `/` is rejected with 400 as a
file key by the store and delete handlers and that a PUT to `/` stores
nothing.  In the code, `handlePutFile` checks `filePath.trim() === ""` before
stripping leading slashes, so `/` passes validation, is stripped to the empty
key, stored, and answered 201; `handleDeleteFile` likewise deletes the empty
key and answers 200.  Neither rejects with 400. -/
theorem claim_C5_root_not_rejected :
    handlePutFile "/" "https://h" (fun _ => none) (Except.ok ())
        = some ⟨⟨201, "File uploaded successfully"⟩,
            [StoreOp.put "" "application/octet-stream"], ["https://h/"]⟩
    ∧ handleDeleteFile "/" "https://h" (Except.ok ())
        = some ⟨⟨200, "File deleted successfully"⟩, [StoreOp.del ""], ["https://h/"]⟩ :=
  ⟨rfl, rfl⟩

/-- Claim C2 counterexample.  A successful `PUT /a/b.txt` schedules its single
eviction for the root listing URL, not for the parent directory listing
`/a` that the claim requires. -/
theorem claim_C2_counterexample :
    (handlePutFile "/a/b.txt" "https://h" (fun _ => none) (Except.ok ())).map
        (fun o => o.evictions) = some ["https://h/"]
    ∧ "https://h" ++ ("/" ++ specParent "a/b.txt") = "https://h/a"
    ∧ (["https://h/"] : List String) ≠ ["https://h/a"] :=
  ⟨rfl, rfl, by decide⟩

/-- Claim C2 (amended).  On a successful mutation each handler schedules
exactly one cache eviction and produces its response without input from the
eviction: DELETE targets the parent listing URL of the deleted key
(everything before the last `/`, the root when the key has no slash), while
PUT always targets the root listing URL. -/
theorem claim_C2_amended (pathname origin : String) (mime : String → Option String) :
    (∀ fp, decodeURIComponent (⟨pathname.data.drop 1⟩ : String) = some fp →
      jsIncludes fp ".." = false →
      handleDeleteFile pathname origin (Except.ok ())
        = some ⟨⟨200, "File deleted successfully"⟩, [StoreOp.del fp],
            [origin ++ ("/" ++ specParent fp)]⟩)
    ∧ (∀ fp0, decodeURIComponent pathname = some fp0 →
      canonCheck fp0 = false →
      handlePutFile pathname origin mime (Except.ok ())
        = some ⟨⟨201, "File uploaded successfully"⟩,
            [StoreOp.put (stripLeadingSlashes fp0)
              ((mime (extOf (stripLeadingSlashes fp0))).getD "application/octet-stream")],
            [origin ++ "/"]⟩) := by
  constructor
  · intro fp hdec hdd
    unfold handleDeleteFile
    rw [hdec]
    dsimp only
    rw [if_neg (by rw [hdd]; exact Bool.false_ne_true)]
    rw [deleteDir_eq_specParent]
  · intro fp0 hdec hchk
    unfold handlePutFile
    rw [hdec]
    dsimp only
    rw [if_neg (by rw [hchk]; exact Bool.false_ne_true)]

/-- Witness for the amended claim C2 at `DELETE /d/e.txt` and
`PUT /d/e.txt`: one eviction each, `/d` for the delete and the root for
the put. -/
theorem claim_C2_amended_witness :
    decodeURIComponent (⟨("/d/e.txt" : String).data.drop 1⟩ : String) = some "d/e.txt"
    ∧ jsIncludes "d/e.txt" ".." = false
    ∧ handleDeleteFile "/d/e.txt" "https://h" (Except.ok ())
        = some ⟨⟨200, "File deleted successfully"⟩, [StoreOp.del "d/e.txt"], ["https://h/d"]⟩
    ∧ handlePutFile "/d/e.txt" "https://h" (fun _ => none) (Except.ok ())
        = some ⟨⟨201, "File uploaded successfully"⟩,
            [StoreOp.put "d/e.txt" "application/octet-stream"], ["https://h/"]⟩ := by
  have h := claim_C2_amended "/d/e.txt" "https://h" (fun _ => none)
  refine ⟨rfl, by decide, ?_, ?_⟩
  · rw [h.1 "d/e.txt" rfl (by decide)]
    decide
  · rw [h.2 "/d/e.txt" rfl (by decide)]
    decide

/-- Claim C4 counterexample.  The canonicalization is not idempotent: the
accepted input `%2525` canonicalizes to `%25`, but canonicalizing `%25`
percent-decodes again and yields `%`. -/
theorem claim_C4_counterexample :
    canonicalize "%2525" = some "%25"
    ∧ canonicalize "%25" = some "%"
    ∧ canonicalize "%25" ≠ some "%25" :=
  ⟨rfl, rfl, by decide⟩

/-- Claim C4 (amended).  The canonicalization (decode once, reject on `..` or
blank, strip leading slashes) is idempotent on every accepted input whose
output contains no `%` and is not blank after trimming: canonicalizing such
an output returns it unchanged. -/
theorem claim_C4_amended (x y : String) (hxy : canonicalize x = some y)
    (hpct : '%' ∉ y.data) (hblank : jsTrim y ≠ "") :
    canonicalize y = some y :=
  canonicalize_idem hxy hpct hblank

/-- Witness for the amended claim C4 at input `/a.txt`. -/
theorem claim_C4_amended_witness :
    canonicalize "/a.txt" = some "a.txt"
    ∧ '%' ∉ ("a.txt" : String).data
    ∧ jsTrim "a.txt" ≠ ""
    ∧ canonicalize "a.txt" = some "a.txt" :=
  ⟨rfl, by decide, by decide, claim_C4_amended "/a.txt" "a.txt" rfl (by decide) (by decide)⟩

theorem expectedEvsAll_all_ok (origin : String) (l : List (String × Except String Unit))
    (h : ∀ it ∈ l, exceptOk it.2 = true) :
    expectedEvsAll origin l = l.map (fun _ => origin ++ "/") := by
  induction l with
  | nil => rfl
  | cons it rest ih =>
    have hit := h it (List.mem_cons_self _ _)
    have hrest : ∀ it2 ∈ rest, exceptOk it2.2 = true :=
      fun it2 h2 => h it2 (List.mem_cons_of_mem _ h2)
    unfold expectedEvsAll expectedEvs
    cases hr : it.2 with
    | ok u => rw [ih hrest]; rfl
    | error msg =>
      rw [hr] at hit
      simp [exceptOk] at hit

/-- Claim C6.  In bulk upload with per-item store outcomes, a failing item
gets a failure entry with the error message and processing continues: the
response has status 200 and carries (as JSON) exactly one outcome entry per
file item, in order, each a success or failure according to that item's
store outcome; the store calls are the attempted puts in order (no deletes,
so nothing already stored is rolled back). -/
theorem claim_C6_bulk_partial_failure (entries : List FormEntry)
    (mime : String → Option String) (md origin : String)
    (hok : ∀ e ∈ entries, entryOk e = true) :
    handleMultpleUploads entries mime md origin =
      ⟨⟨200, jsonStringify ((fileItems entries).map (expectedEntry mime md))⟩,
        (fileItems entries).map (expectedEntry mime md),
        (fileItems entries).map (expectedOp mime md),
        expectedEvsAll origin (fileItems entries)⟩
    ∧ (handleMultpleUploads entries mime md origin).results.length
        = (fileItems entries).length
    ∧ ∀ op ∈ (handleMultpleUploads entries mime md origin).storeOps,
        ∃ k ct, op = StoreOp.put k ct := by
  have hmain : handleMultpleUploads entries mime md origin =
      ⟨⟨200, jsonStringify ((fileItems entries).map (expectedEntry mime md))⟩,
        (fileItems entries).map (expectedEntry mime md),
        (fileItems entries).map (expectedOp mime md),
        expectedEvsAll origin (fileItems entries)⟩ := by
    unfold handleMultpleUploads
    rw [show entries = entries ++ [] from (List.append_nil entries).symm,
      processEntries_append mime md origin entries [] [] [] [] hok,
      processEntries_nil]
    simp
  refine ⟨hmain, ?_, ?_⟩
  · rw [hmain]
    simp
  · rw [hmain]
    intro op hop
    simp only [List.mem_map] at hop
    rcases hop with ⟨it, _, rfl⟩
    exact ⟨_, _, rfl⟩

/-- Witness for claim C6: the spec's three-item example, where the second
item's store fails; the result array has length 3 with items 1 and 3 marked
success and item 2 marked failed with the error message. -/
theorem claim_C6_witness :
    (∀ e ∈ ([.file "a.txt" (Except.ok ()), .file "b.txt" (Except.error "disk full"),
        .file "c.txt" (Except.ok ())] : List FormEntry), entryOk e = true)
    ∧ (handleMultpleUploads
        [.file "a.txt" (Except.ok ()), .file "b.txt" (Except.error "disk full"),
          .file "c.txt" (Except.ok ())] (fun _ => none) "application/octet-stream"
        "https://h").results
      = [[("sanitizedFilename", "a.txt"), ("status", "success"),
          ("contentType", "application/octet-stream")],
         [("filename", "b.txt"), ("status", "failed"), ("error", "disk full")],
         [("sanitizedFilename", "c.txt"), ("status", "success"),
          ("contentType", "application/octet-stream")]]
    ∧ (handleMultpleUploads
        [.file "a.txt" (Except.ok ()), .file "b.txt" (Except.error "disk full"),
          .file "c.txt" (Except.ok ())] (fun _ => none) "application/octet-stream"
        "https://h").response.status = 200 := by
  have h := (claim_C6_bulk_partial_failure
    [.file "a.txt" (Except.ok ()), .file "b.txt" (Except.error "disk full"),
      .file "c.txt" (Except.ok ())] (fun _ => none) "application/octet-stream" "https://h"
    (by decide)).1
  refine ⟨by decide, ?_, ?_⟩
  · rw [h]
    decide
  · rw [h]

/-- Claim C7 counterexample.  A bulk upload whose first file item has the
empty sanitized name `/` is rejected as a whole with 400 "Invalid filename":
no per-item failure entry is recorded and the remaining item `b.txt` is
never processed (no store call happens). -/
theorem claim_C7_counterexample :
    handleMultpleUploads [.file "/" (Except.ok ()), .file "b.txt" (Except.ok ())]
        (fun _ => none) "application/octet-stream" "https://h"
      = ⟨⟨400, "Invalid filename"⟩, [], [], []⟩ := rfl

/-- Claim C7 (amended).  A file item whose sanitized filename is empty causes
the whole request to be rejected with status 400 ("Invalid filename"): no
entry is recorded for the item, the remaining items are not processed, and
the results, store calls and scheduled evictions accumulated for the
already-processed items are kept (no rollback). -/
theorem claim_C7_amended (mime : String → Option String) (md origin : String)
    (pre rest : List FormEntry) (fn : String) (r : Except String Unit)
    (hpre : ∀ e ∈ pre, entryOk e = true)
    (hdd : jsIncludes fn ".." = false) (hsan : stripLeadingSlashes fn = "") :
    handleMultpleUploads (pre ++ FormEntry.file fn r :: rest) mime md origin =
      ⟨⟨400, "Invalid filename"⟩,
        (fileItems pre).map (expectedEntry mime md),
        (fileItems pre).map (expectedOp mime md),
        expectedEvsAll origin (fileItems pre)⟩ := by
  unfold handleMultpleUploads
  rw [processEntries_append mime md origin pre (FormEntry.file fn r :: rest) [] [] [] hpre,
    processEntries_cons_file_blank _ _ _ _ _ _ _ _ _ hdd hsan]
  simp

/-- Witness for the amended claim C7: a successful `a.txt` followed by a `/`
item and an unreached `b.txt`. -/
theorem claim_C7_amended_witness :
    (∀ e ∈ ([.file "a.txt" (Except.ok ())] : List FormEntry), entryOk e = true)
    ∧ jsIncludes "/" ".." = false
    ∧ stripLeadingSlashes "/" = ""
    ∧ handleMultpleUploads
        ([.file "a.txt" (Except.ok ())] ++ FormEntry.file "/" (Except.ok ()) ::
          [.file "b.txt" (Except.ok ())]) (fun _ => none) "application/octet-stream"
        "https://h"
      = ⟨⟨400, "Invalid filename"⟩,
          [[("sanitizedFilename", "a.txt"), ("status", "success"),
            ("contentType", "application/octet-stream")]],
          [StoreOp.put "a.txt" "application/octet-stream"],
          ["https://h/"]⟩ := by
  refine ⟨by decide, by decide, by decide, ?_⟩
  rw [claim_C7_amended (fun _ => none) "application/octet-stream" "https://h"
    [.file "a.txt" (Except.ok ())] [.file "b.txt" (Except.ok ())] "/" (Except.ok ())
    (by decide) (by decide) (by decide)]
  decide

/-- Claim C10.  When a bulk upload contains a file item whose name includes
`..` after earlier file items were already stored successfully, the whole
request is rejected with 400 "Invalid path"; the earlier items' puts remain
performed (no rollback) and their scheduled root-listing evictions remain
scheduled (one per stored item), while the 400 response body is the fixed
string "Invalid path", reporting nothing about the stored items. -/
theorem claim_C10_traversal_mid_batch (mime : String → Option String) (md origin : String)
    (pre rest : List FormEntry) (bad : String) (r : Except String Unit)
    (hpre : ∀ e ∈ pre, entryOk e = true)
    (hpreok : ∀ it ∈ fileItems pre, exceptOk it.2 = true)
    (hne : fileItems pre ≠ [])
    (hbad : jsIncludes bad ".." = true) :
    handleMultpleUploads (pre ++ FormEntry.file bad r :: rest) mime md origin =
      ⟨⟨400, "Invalid path"⟩,
        (fileItems pre).map (expectedEntry mime md),
        (fileItems pre).map (expectedOp mime md),
        (fileItems pre).map (fun _ => origin ++ "/")⟩ := by
  unfold handleMultpleUploads
  rw [processEntries_append mime md origin pre (FormEntry.file bad r :: rest) [] [] [] hpre,
    processEntries_cons_file_traversal _ _ _ _ _ _ _ _ _ hbad,
    expectedEvsAll_all_ok origin _ hpreok]
  simp

/-- Witness for claim C10: `a.txt` stored, then `../x` aborts with 400 while
`a.txt`'s put and its root eviction remain. -/
theorem claim_C10_witness :
    (∀ e ∈ ([.file "a.txt" (Except.ok ())] : List FormEntry), entryOk e = true)
    ∧ jsIncludes "../x" ".." = true
    ∧ handleMultpleUploads
        ([.file "a.txt" (Except.ok ())] ++ FormEntry.file "../x" (Except.ok ()) ::
          [.file "c.txt" (Except.ok ())]) (fun _ => none) "application/octet-stream"
        "https://h"
      = ⟨⟨400, "Invalid path"⟩,
          [[("sanitizedFilename", "a.txt"), ("status", "success"),
            ("contentType", "application/octet-stream")]],
          [StoreOp.put "a.txt" "application/octet-stream"],
          ["https://h/"]⟩ := by
  refine ⟨by decide, by decide, ?_⟩
  rw [claim_C10_traversal_mid_batch (fun _ => none) "application/octet-stream" "https://h"
    [.file "a.txt" (Except.ok ())] [.file "c.txt" (Except.ok ())] "../x" (Except.ok ())
    (by decide) (by decide) (by simp [fileItems]) (by decide)]
  decide

theorem bulk_results_shape (mime : String → Option String) (md origin : String) :
    ∀ (entries : List FormEntry) (results : List ResultEntry) (ops : List StoreOp)
      (evs : List String),
      (∀ e ∈ results,
        (List.lookup "status" e = some "success"
          ∧ (∃ v, List.lookup "sanitizedFilename" e = some v)
          ∧ (∃ v, List.lookup "contentType" e = some v))
        ∨ (List.lookup "status" e = some "failed"
          ∧ (∃ v, List.lookup "filename" e = some v)
          ∧ (∃ v, List.lookup "error" e = some v))) →
      ∀ e ∈ (processEntries mime md origin entries results ops evs).results,
        (List.lookup "status" e = some "success"
          ∧ (∃ v, List.lookup "sanitizedFilename" e = some v)
          ∧ (∃ v, List.lookup "contentType" e = some v))
        ∨ (List.lookup "status" e = some "failed"
          ∧ (∃ v, List.lookup "filename" e = some v)
          ∧ (∃ v, List.lookup "error" e = some v)) := by
  intro entries
  induction entries with
  | nil =>
    intro results ops evs h e he
    exact h e he
  | cons ent rest ih =>
    intro results ops evs h e he
    cases ent with
    | field n v => exact ih results ops evs h e he
    | file fn r =>
      by_cases hdd : jsIncludes fn ".." = true
      · rw [processEntries_cons_file_traversal _ _ _ _ _ _ _ _ _ hdd] at he
        exact h e he
      · have hdd2 : jsIncludes fn ".." = false := by
          cases hh : jsIncludes fn ".." with
          | true => exact absurd hh hdd
          | false => rfl
        by_cases hsan : stripLeadingSlashes fn = ""
        · rw [processEntries_cons_file_blank _ _ _ _ _ _ _ _ _ hdd2 hsan] at he
          exact h e he
        · cases r with
          | ok u =>
            rw [processEntries_cons_file_ok _ _ _ fn u _ _ _ _ hdd2 hsan] at he
            refine ih _ _ _ ?_ e he
            intro e2 he2
            rcases List.mem_append.mp he2 with h2 | h2
            · exact h e2 h2
            · simp only [List.mem_singleton] at h2
              subst h2
              exact Or.inl ⟨rfl, ⟨_, rfl⟩, ⟨_, rfl⟩⟩
          | error msg =>
            rw [processEntries_cons_file_error _ _ _ fn msg _ _ _ _ hdd2 hsan] at he
            refine ih _ _ _ ?_ e he
            intro e2 he2
            rcases List.mem_append.mp he2 with h2 | h2
            · exact h e2 h2
            · simp only [List.mem_singleton] at h2
              subst h2
              exact Or.inr ⟨rfl, ⟨_, rfl⟩, ⟨_, rfl⟩⟩

/-- Claim C9 counterexample.  A successful upload entry carries its name
under the field `sanitizedFilename` — there is no `filename` field on
success entries, contradicting the claimed `{ filename, status, … }` shape. -/
theorem claim_C9_counterexample :
    (handleMultpleUploads [.file "a.txt" (Except.ok ())] (fun _ => none)
        "application/octet-stream" "https://h").results
      = [[("sanitizedFilename", "a.txt"), ("status", "success"),
          ("contentType", "application/octet-stream")]]
    ∧ List.lookup "filename"
        [("sanitizedFilename", "a.txt"), ("status", "success"),
          ("contentType", "application/octet-stream")] = none := by
  exact ⟨by decide, by decide⟩

/-- Claim C9 (amended).  Every entry of the bulk-upload results array has a
`status` field equal to "success" or "failed"; success entries carry
`sanitizedFilename` and `contentType` fields, and failure entries carry
`filename` and `error` fields. -/
theorem claim_C9_amended (entries : List FormEntry) (mime : String → Option String)
    (md origin : String) :
    ∀ e ∈ (handleMultpleUploads entries mime md origin).results,
      (List.lookup "status" e = some "success"
        ∧ (∃ v, List.lookup "sanitizedFilename" e = some v)
        ∧ (∃ v, List.lookup "contentType" e = some v))
      ∨ (List.lookup "status" e = some "failed"
        ∧ (∃ v, List.lookup "filename" e = some v)
        ∧ (∃ v, List.lookup "error" e = some v)) :=
  bulk_results_shape mime md origin entries [] [] []
    (fun e he => absurd he (List.not_mem_nil e))

/-- Witness for the amended claim C9 on a concrete two-item upload with one
failure. -/
theorem claim_C9_amended_witness :
    ([("filename", "b.txt"), ("status", "failed"), ("error", "disk full")] ∈
      (handleMultpleUploads [.file "a.txt" (Except.ok ()),
        .file "b.txt" (Except.error "disk full")] (fun _ => none)
        "application/octet-stream" "https://h").results)
    ∧ ((List.lookup "status" [("filename", "b.txt"), ("status", "failed"),
          ("error", "disk full")] = some "success"
        ∧ (∃ v, List.lookup "sanitizedFilename" [("filename", "b.txt"), ("status", "failed"),
            ("error", "disk full")] = some v)
        ∧ (∃ v, List.lookup "contentType" [("filename", "b.txt"), ("status", "failed"),
            ("error", "disk full")] = some v))
      ∨ (List.lookup "status" [("filename", "b.txt"), ("status", "failed"),
          ("error", "disk full")] = some "failed"
        ∧ (∃ v, List.lookup "filename" [("filename", "b.txt"), ("status", "failed"),
            ("error", "disk full")] = some v)
        ∧ (∃ v, List.lookup "error" [("filename", "b.txt"), ("status", "failed"),
            ("error", "disk full")] = some v))) := by
  constructor
  · decide
  · exact claim_C9_amended [.file "a.txt" (Except.ok ()),
      .file "b.txt" (Except.error "disk full")] (fun _ => none)
      "application/octet-stream" "https://h" _ (by decide)

/-- Claim C3 counterexample.  In the listing of `/x` whose only child is the
folder marker `x/sub/`, the rendered document carries a `getcontentlength`
element for that collection child (value `0`), although the claim says a
collection child is rendered with no getcontentlength element. -/
theorem claim_C3_counterexample :
    ("x/sub/" : String).data.getLast? = some '/'
    ∧ StrContains (handleFileList "/x" (Except.ok [⟨"x/sub/", 0, 0⟩])).response.body
        ("<D:getcontentlength>" ++ natToStr 0 ++ "</D:getcontentlength>") := by
  refine ⟨by decide, ?_⟩
  have h1 := childBlock_contains_contentlength ⟨"x/sub/", 0, 0⟩
  have h2 := @strContains_body_child "/x" [⟨"x/sub/", 0, 0⟩] ⟨"x/sub/", 0, 0⟩
    (List.mem_singleton.mpr rfl)
  exact List.IsInfix.trans h1 h2

/-- Claim C3 (amended).  Every listed child's response element appears in the
rendered listing; a child whose key ends in `/` is rendered as a collection
entry that also carries a getcontentlength element equal to its byte size
(the source emits getcontentlength unconditionally), and every other child
is rendered as a non-collection entry whose getcontentlength equals its byte
size and whose getlastmodified is the store's upload timestamp in RFC
1123-style UTC format (`toUTCString`). -/
theorem claim_C3_amended (o : ObjEntry) :
    (o.key.data.getLast? = some '/' →
      StrContains (childBlock o) "<D:resourcetype><D:collection/></D:resourcetype>"
      ∧ StrContains (childBlock o)
          ("<D:getcontentlength>" ++ natToStr o.size ++ "</D:getcontentlength>"))
    ∧ (o.key.data.getLast? ≠ some '/' →
      StrContains (childBlock o) "<D:resourcetype/>"
      ∧ StrContains (childBlock o)
          ("<D:getcontentlength>" ++ natToStr o.size ++ "</D:getcontentlength>")
      ∧ StrContains (childBlock o)
          ("<D:getlastmodified>" ++ toUTCString o.uploaded ++ "</D:getlastmodified>"))
    ∧ ∀ (pathname : String) (objs : List ObjEntry), o ∈ objs →
        StrContains (handleFileList pathname (Except.ok objs)).response.body
          (childBlock o) :=
  ⟨fun hf => ⟨childBlock_contains_folder_marker o hf, childBlock_contains_contentlength o⟩,
    fun hf => ⟨childBlock_contains_file_marker o hf, childBlock_contains_contentlength o,
      childBlock_contains_lastmodified o⟩,
    fun _ _ ho => strContains_body_child ho⟩

/-- Witness for the amended claim C3: a folder child and a file child of
`/x`. -/
theorem claim_C3_amended_witness :
    ("x/sub/" : String).data.getLast? = some '/'
    ∧ StrContains (childBlock ⟨"x/sub/", 0, 0⟩)
        "<D:resourcetype><D:collection/></D:resourcetype>"
    ∧ ¬ ("x/a.txt" : String).data.getLast? = some '/'
    ∧ StrContains (childBlock ⟨"x/a.txt", 10, 5⟩) "<D:resourcetype/>"
    ∧ StrContains (handleFileList "/x" (Except.ok [⟨"x/a.txt", 10, 5⟩])).response.body
        (childBlock ⟨"x/a.txt", 10, 5⟩) :=
  ⟨by decide, ((claim_C3_amended ⟨"x/sub/", 0, 0⟩).1 (by decide)).1,
    by decide, ((claim_C3_amended ⟨"x/a.txt", 10, 5⟩).2.1 (by decide)).1,
    (claim_C3_amended ⟨"x/a.txt", 10, 5⟩).2.2 "/x" _ (by decide)⟩

/-- Claim C8 counterexample.  The pathname `/a//` normalizes to `/a/` (only
one trailing slash is removed), and its rendered collection displayname is
the empty string rather than the last non-empty path segment `a`. -/
theorem claim_C8_counterexample :
    normalizeListPath "/a//" = "/a/"
    ∧ collDisplayName (normalizeListPath "/a//") = ""
    ∧ lastNonEmptySeg (normalizeListPath "/a//") = some "a"
    ∧ collDisplayName (normalizeListPath "/a//") ≠ "a"
    ∧ StrContains (handleFileList "/a//" (Except.ok [])).response.body
        ("<D:displayname>" ++ "" ++ "</D:displayname>") := by
  refine ⟨by decide, by decide, by decide, by decide, ?_⟩
  have h1 := collectionBlock_contains_displayname (normalizeListPath "/a//")
  have h2 : StrContains (handleFileList "/a//" (Except.ok [])).response.body
      (collectionBlock (normalizeListPath "/a//")) := by
    show (collectionBlock (normalizeListPath "/a//")).data <:+:
      (collectionBlock (normalizeListPath "/a//") ++ concatBlocks [] ++
        "\n</D:multistatus>").data
    simp only [data_append, List.append_assoc]
    exact (List.prefix_append _ _).isInfix
  have h1a : StrContains (collectionBlock (normalizeListPath "/a//"))
      ("<D:displayname>" ++ "" ++ "</D:displayname>") := by
    have he : collDisplayName (normalizeListPath "/a//") = "" := by decide
    rw [← he]
    exact h1
  exact List.IsInfix.trans h1a h2

/-- Claim C8 (amended).  A successfully rendered listing is the collection's
own response element first, followed by one response element per child and
the closing tag; counted as occurrences of `<D:response>` there are exactly
`1 + n` response elements when no interpolated name contains `<` (the source
does not XML-escape).  The collection element carries the collection's href
and a displayname that is `root` for the root and, whenever the normalized
path does not end in `/`, its last non-empty segment; each child element
carries a displayname equal to the child key's last non-empty `/`-delimited
segment whenever one exists. -/
theorem claim_C8_amended (pathname : String) (objs : List ObjEntry)
    (hp : '<' ∉ (normalizeListPath pathname).data)
    (hroot : normalizeListPath pathname = "/" ∨
      (normalizeListPath pathname).data.getLast? ≠ some '/')
    (hkeys : ∀ o ∈ objs, '<' ∉ o.key.data) :
    (handleFileList pathname (Except.ok objs)).response.body
        = collectionBlock (normalizeListPath pathname) ++ concatBlocks objs ++
          "\n</D:multistatus>"
    ∧ countSubstr "<D:response>" (handleFileList pathname (Except.ok objs)).response.body
        = 1 + objs.length
    ∧ countSubstr "<D:response>" (collectionBlock (normalizeListPath pathname)) = 1
    ∧ StrContains (collectionBlock (normalizeListPath pathname))
        ("<D:href>" ++ encodeURI (normalizeListPath pathname) ++ "</D:href>")
    ∧ StrContains (collectionBlock (normalizeListPath pathname))
        ("<D:displayname>" ++ collDisplayName (normalizeListPath pathname) ++
          "</D:displayname>")
    ∧ (normalizeListPath pathname = "/" →
        collDisplayName (normalizeListPath pathname) = "root")
    ∧ (normalizeListPath pathname ≠ "/" →
        lastNonEmptySeg (normalizeListPath pathname)
          = some (collDisplayName (normalizeListPath pathname)))
    ∧ ∀ o ∈ objs,
        countSubstr "<D:response>" (childBlock o) = 1
        ∧ StrContains (handleFileList pathname (Except.ok objs)).response.body (childBlock o)
        ∧ StrContains (childBlock o)
            ("<D:displayname>" ++ childDisplayName o.key ++ "</D:displayname>")
        ∧ ∀ seg, lastNonEmptySeg o.key = some seg → childDisplayName o.key = seg := by
  have hbody : (handleFileList pathname (Except.ok objs)).response.body
      = collectionBlock (normalizeListPath pathname) ++ concatBlocks objs ++
        "\n</D:multistatus>" := rfl
  refine ⟨hbody, ?_, countOcc_collectionBlock_data _ hp, collectionBlock_contains_href _,
    collectionBlock_contains_displayname _, ?_, ?_, ?_⟩
  · rw [hbody]
    exact countOcc_body _ objs hp hkeys
  · intro h
    unfold collDisplayName
    rw [if_pos h]
  · intro h
    refine collDisplayName_spec ?_ h ?_
    · have hh := normalizeListPath_head pathname
      intro hnil
      rw [hnil] at hh
      simp at hh
    · rcases hroot with h1 | h1
      · exact absurd h1 h
      · exact h1
  · intro o ho
    exact ⟨countOcc_childBlock_data o (hkeys o ho), strContains_body_child ho,
      childBlock_contains_displayname o, fun seg hseg => childDisplayName_eq hseg⟩

/-- Witness for the amended claim C8: listing `/x` with the spec's example
children `x/a.txt` (size 10) and the folder marker `x/sub/` yields three
response elements, and the displayname facts hold. -/
theorem claim_C8_amended_witness :
    ('<' ∉ (normalizeListPath "/x").data)
    ∧ (normalizeListPath "/x" = "/" ∨ (normalizeListPath "/x").data.getLast? ≠ some '/')
    ∧ (∀ o ∈ ([⟨"x/a.txt", 10, 0⟩, ⟨"x/sub/", 0, 0⟩] : List ObjEntry), '<' ∉ o.key.data)
    ∧ countSubstr "<D:response>"
        (handleFileList "/x"
          (Except.ok [⟨"x/a.txt", 10, 0⟩, ⟨"x/sub/", 0, 0⟩])).response.body = 3
    ∧ lastNonEmptySeg (normalizeListPath "/x")
        = some (collDisplayName (normalizeListPath "/x")) := by
  have h := claim_C8_amended "/x" [⟨"x/a.txt", 10, 0⟩, ⟨"x/sub/", 0, 0⟩] (by decide)
    (Or.inr (by decide)) (by decide)
  refine ⟨by decide, Or.inr (by decide), by decide, ?_, h.2.2.2.2.2.2.1 (by decide)⟩
  have hc := h.2.1
  rw [hc]
  rfl

end Bookodav
